import Mathlib

/-!
# go-hls-audio: the Stream scheduler

A shallow embedding of `hls.go` and `options.go` (package `hls`).

Modelling conventions
* A Go `string` is a Lean `String`; `+` is `++`.
* A Go slice is a `List`; `append` adds at the end; `s[1:]` is the tail.
* A nil-able Go value (interface, func, pointer, channel, map) is an `Option`,
  `none` being `nil`.  Using a nil mutex or calling a nil func panics in Go;
  the embedding returns `Res.panic` there.
* Go `int` values are `Int`; no arithmetic is done on them in this package.
* Logging (`s.log`) and the notification goroutine change no field of the
  stream and are left out of the state.
* The external `ffmpeg` process is a parameter of the run (`Engine`).
* Standard-library functions the package calls (`strings.TrimSpace`,
  `strconv.Itoa`, `fmt.Sprintf("%d")`, `filepath.Dir`, `filepath.Clean`) are
  embedded from the Go standard library for a Unix target (separator `/`,
  no volume names).
-/

namespace Hls

/-! ## Standard library: strings and strconv -/

/-- Go `unicode.IsSpace`: the Latin-1 cases and the `White_Space` table. -/
def isSpace (c : Char) : Bool :=
  let r := c.toNat
  (9 ≤ r && r ≤ 13) || r == 32 || r == 133 || r == 160 || r == 5760 ||
    (8192 ≤ r && r ≤ 8202) || r == 8232 || r == 8233 || r == 8239 ||
    r == 8287 || r == 12288

/-- Go `strings.TrimSpace`: all leading and trailing white space removed. -/
def TrimSpace (s : String) : String :=
  ⟨(s.data.dropWhile isSpace).rdropWhile isSpace⟩

/-- Go `strconv.Itoa` (also `fmt.Sprintf("%d", i)`): the decimal text of an int. -/
def Itoa : Int → String
  | Int.ofNat n => Nat.repr n
  | Int.negSucc n => "-" ++ Nat.repr (n + 1)

/-! ## Standard library: path/filepath (Unix) -/

/-- Go `os.IsPathSeparator` on Unix. -/
def IsPathSeparator (c : Char) : Bool := c == '/'

/-- The byte `path[i]`; every use is guarded by `i < len(path)`. -/
def byteAt (path : List Char) (i : Nat) : Char := path.getD i (Char.ofNat 0)

/-- Go `lazybuf` of `filepath.Clean`: the output written so far is the first
`w` bytes of `buf`.  Bytes at positions `≥ w` are stale. -/
structure lazybuf where
  buf : List Char
  w : Nat
deriving DecidableEq

/-- Go `lazybuf.index`. -/
def lazybuf.index (b : lazybuf) (i : Nat) : Char := byteAt b.buf i

/-- Go `lazybuf.append`: write `c` at position `w` and advance `w`. -/
def lazybuf.append (b : lazybuf) (c : Char) : lazybuf :=
  { buf := b.buf.take b.w ++ [c], w := b.w + 1 }

/-- Go `lazybuf.string`. -/
def lazybuf.string (b : lazybuf) : List Char := b.buf.take b.w

/-- The inner loop of the `..` case of `filepath.Clean`:
`for out.w > dotdot && !os.IsPathSeparator(out.index(out.w)) { out.w-- }`. -/
def backtrack (out : lazybuf) (dotdot : Nat) : Nat → Nat
  | 0 => 0
  | w + 1 =>
    if w + 1 > dotdot && !IsPathSeparator (out.index (w + 1)) then backtrack out dotdot w
    else w + 1

/-- The copy loop of the default case of `filepath.Clean`:
`for ; r < n && !os.IsPathSeparator(path[r]); r++ { out.append(path[r]) }`.
The first argument bounds the number of iterations. -/
def copyElement (path : List Char) : Nat → Nat → lazybuf → Nat × lazybuf
  | 0, r, out => (r, out)
  | fuel + 1, r, out =>
    if r < path.length && !IsPathSeparator (byteAt path r) then
      copyElement path fuel (r + 1) (out.append (byteAt path r))
    else (r, out)

/-- The main loop `for r < n { switch ... }` of `filepath.Clean`.
The first argument bounds the number of iterations. -/
def cleanLoop (path : List Char) (rooted : Bool) : Nat → Nat → Nat → lazybuf → lazybuf
  | 0, _, _, out => out
  | fuel + 1, r, dotdot, out =>
    let n := path.length
    if r < n then
      if IsPathSeparator (byteAt path r) then
        -- empty path element
        cleanLoop path rooted fuel (r + 1) dotdot out
      else if byteAt path r == '.' && (r + 1 == n || IsPathSeparator (byteAt path (r + 1))) then
        -- . element
        cleanLoop path rooted fuel (r + 1) dotdot out
      else if byteAt path r == '.' && byteAt path (r + 1) == '.' &&
          (r + 2 == n || IsPathSeparator (byteAt path (r + 2))) then
        -- .. element: remove to last separator
        if out.w > dotdot then
          -- can backtrack
          cleanLoop path rooted fuel (r + 2) dotdot { out with w := backtrack out dotdot (out.w - 1) }
        else if !rooted then
          -- cannot backtrack, but not rooted, so append .. element
          let out1 := if out.w > 0 then out.append '/' else out
          let out2 := (out1.append '.').append '.'
          cleanLoop path rooted fuel (r + 2) out2.w out2
        else
          cleanLoop path rooted fuel (r + 2) dotdot out
      else
        -- real path element: add slash if needed, copy element
        let out1 :=
          if (rooted && out.w != 1) || (!rooted && out.w != 0) then out.append '/' else out
        let (r1, out2) := copyElement path (n - r) r out1
        cleanLoop path rooted fuel r1 dotdot out2
    else out

/-- Go `filepath.Clean` on Unix, on the bytes of the path. -/
def cleanBytes (path : List Char) : List Char :=
  if path = [] then ['.']
  else
    let rooted := IsPathSeparator (byteAt path 0)
    let n := path.length
    let out0 : lazybuf := { buf := [], w := 0 }
    let out :=
      if rooted then cleanLoop path rooted n 1 1 (out0.append '/')
      else cleanLoop path rooted n 0 0 out0
    -- Turn empty string into "."
    let out := if out.w == 0 then out.append '.' else out
    out.string

/-- Go `filepath.Clean` on Unix. -/
def Clean (path : String) : String := ⟨cleanBytes path.data⟩

/-- The scan of `filepath.Dir`:
`i := len(path) - 1; for i >= 0 && !os.IsPathSeparator(path[i]) { i-- }`;
the result is `i + 1`, and the argument is the current `i + 1`. -/
def dirEnd (path : List Char) : Nat → Nat
  | 0 => 0
  | i + 1 => if !IsPathSeparator (byteAt path i) then dirEnd path i else i + 1

/-- Go `filepath.Dir` on Unix: `Clean(path[:i+1])`, `i` the last separator. -/
def Dir (path : String) : String :=
  ⟨cleanBytes (path.data.take (dirEnd path.data path.data.length))⟩

/-! ## Data model (hls.go:17-70) -/

/-- Go `error` values met in the package. -/
inductive GoError where
  /-- The package variable `ErrNoAudioInQueue` (hls.go:18). -/
  | ErrNoAudioInQueue
  /-- A value made by `errors.New(msg)`; also any error handed back by `os/exec`. -/
  | errorsNew (msg : String)
  /-- A value made by `fmt.Errorf` with a `%w` verb: its text and the wrapped error. -/
  | wrapError (msg : String) (err : GoError)
deriving DecidableEq

/-- Go `err.Error()`. -/
def GoError.Error : GoError → String
  | .ErrNoAudioInQueue => "no audio in queue"
  | .errorsNew msg => msg
  | .wrapError msg _ => msg

/-- Go `errors.Unwrap(err)`. -/
def GoError.Unwrap : GoError → Option GoError
  | .wrapError _ err => some err
  | _ => none

/-- Go `type Audio struct`.  `Data` is an `io.Reader`: the bytes it yields. -/
structure Audio where
  Data : Option (List Nat)
  ID : Int
  Artist : String
  Title : String
  Metadata : Option (List (String × String))
  OverrideEncoding : String
deriving DecidableEq

/-- The zero value `Audio{}`. -/
def Audio.zero : Audio :=
  { Data := none, ID := 0, Artist := "", Title := "", Metadata := none, OverrideEncoding := "" }

/-- Go `func (a Audio) String() string` (hls.go:68). -/
def Audio.toStr (a : Audio) : String := a.Artist ++ " - " ++ a.Title

/-- An allocated `chan Audio` (unbuffered). -/
structure Chan where
deriving DecidableEq

/-- An allocated `sync.Mutex`. -/
structure Mutex where
deriving DecidableEq

/-- Go `type Stream struct` (hls.go:40).  `dequeuedTimeout` is a
`time.Duration`, a count of nanoseconds. -/
structure Stream where
  encoding : String
  bitrates : List String
  hlsListSize : Int
  hlsTime : Int
  segmentFilename : String
  playlistName : String
  masterPlaylistName : String
  dequeuedTimeout : Int
  isLogging : Bool
  setMetadata : Option (Audio → String)
  queue : List Audio
  dequeued : Option Chan
  buffer : Option (List Nat)
  audioMux : Option Mutex

/-- The zero value `Stream{}`. -/
def Stream.zero : Stream :=
  { encoding := "", bitrates := [], hlsListSize := 0, hlsTime := 0, segmentFilename := "",
    playlistName := "", masterPlaylistName := "", dequeuedTimeout := 0, isLogging := false,
    setMetadata := none, queue := [], dequeued := none, buffer := none, audioMux := none }

/-- The stream with its `queue` field assigned (`s.queue = q`). -/
def Stream.withQueue (s : Stream) (q : List Audio) : Stream := { s with queue := q }

/-- The result of a call that may panic. -/
inductive Res (α : Type) where
  | ok (a : α)
  | panic (msg : String)

/-! ## Constants (hls.go:20-37) -/

def DefaultEncoding : String := "aac"
def DefaultHLSListSize : Int := 80
def DefaultHLSTime : Int := 5
def DefaultSegmentFilename : String := "hls-%v/hls-segment-%06d.ts"
def DefaultPlaylistName : String := "hls-%v/hls-playlist.m3u8"
def DefaultMasterPlaylistName : String := "master.m3u8"
/-- Go `time.Second`, in nanoseconds. -/
def DefaultDequeuedTimeout : Int := 1000000000
def DefaultIsDebugging : Bool := false

/-- Go `defaultMetadataTitle` (hls.go:217). -/
def defaultMetadataTitle (a : Audio) : String := a.Artist ++ " - " ++ a.Title

/-! ## Options (options.go) -/

/-- Go `type StreamOption func(s *Stream)`. -/
abbrev StreamOption := Stream → Stream

def WithBitrates (bitrates : List String) : StreamOption :=
  fun s => { s with bitrates := bitrates }
def WithHLSSize (size : Int) : StreamOption :=
  fun s => { s with hlsListSize := size }
def WithHLSTime (t : Int) : StreamOption :=
  fun s => { s with hlsTime := t }
def WithSegmentFilename (name : String) : StreamOption :=
  fun s => { s with segmentFilename := name }
def WithPlaylistName (name : String) : StreamOption :=
  fun s => { s with playlistName := name }
def WithMasterPlaylistName (name : String) : StreamOption :=
  fun s => { s with masterPlaylistName := name }
def WithDequeuedTimeout (d : Int) : StreamOption :=
  fun s => { s with dequeuedTimeout := d }
def WithDebug : StreamOption :=
  fun s => { s with isLogging := true }
def WithMetadataTitle (fn : Option (Audio → String)) : StreamOption :=
  fun s => { s with setMetadata := fn }

/-! ## Construction (hls.go:72-103) -/

/-- The struct literal at hls.go:74-92. -/
def initStream (bitrates : List String) : Stream :=
  { bitrates := bitrates
    encoding := DefaultEncoding
    hlsListSize := DefaultHLSListSize
    hlsTime := DefaultHLSTime
    segmentFilename := DefaultSegmentFilename
    playlistName := DefaultPlaylistName
    masterPlaylistName := DefaultMasterPlaylistName
    dequeuedTimeout := DefaultDequeuedTimeout
    isLogging := DefaultIsDebugging
    setMetadata := some defaultMetadataTitle
    queue := []
    dequeued := some {}
    audioMux := some {}
    buffer := some [] }

/-- The loop `for _, o := range opts { o(s) }` (hls.go:94-96). -/
def applyOpts (opts : List StreamOption) (s : Stream) : Stream :=
  opts.foldl (fun s o => o s) s

/-- Go `NewStream` (hls.go:73): the returned pair `(Stream, error)`. -/
def NewStream (bitrates : List String) (opts : List StreamOption) : Stream × Option GoError :=
  let s := applyOpts opts (initStream bitrates)
  if Dir s.masterPlaylistName != "." then
    (Stream.zero,
      some (.errorsNew "master playlist cannot have a directory, it must be root. ffmpeg limitation"))
  else (s, none)

/-! ## Queue (hls.go:105-116, 199-209) -/

/-- Go `(*Stream).Append` (hls.go:106): the stream after the call. -/
def Stream.Append (s : Stream) (a : Audio) : Res Stream :=
  match s.audioMux with
  | none => .panic "invalid memory address or nil pointer dereference"
  | some _ => .ok (s.withQueue (s.queue ++ [a]))

/-- Go `(*Stream).QueueSize` (hls.go:114). -/
def Stream.QueueSize (s : Stream) : Nat := s.queue.length

/-- Go `(*Stream).dequeue` (hls.go:199): the returned pair and the stream
after the call. -/
def Stream.dequeue (s : Stream) : Res (Audio × Option GoError × Stream) :=
  match s.audioMux with
  | none => .panic "invalid memory address or nil pointer dereference"
  | some _ =>
    match s.queue with
    | [] => .ok (Audio.zero, some .ErrNoAudioInQueue, s)
    | a :: rest => .ok (a, none, s.withQueue rest)

/-! ## Argument builder (hls.go:187-197) -/

/-- The loop of `bitratesToArgs` from index `i` on, with the accumulators
`inputs` and `streamMap`. -/
def bitratesLoop : List String → Nat → List String → String → List String × String
  | [], _, inputs, streamMap => (inputs, streamMap)
  | r :: rates, i, inputs, streamMap =>
    bitratesLoop rates (i + 1) (inputs ++ ["-b:a:" ++ Itoa i, r, "-map", "a:0"])
      (streamMap ++ (" a:" ++ Itoa i))

/-- Go `bitratesToArgs` (hls.go:188). -/
def bitratesToArgs (rates : List String) : List String :=
  let (inputs, streamMap) := bitratesLoop rates 0 [] ""
  inputs ++ ["-var_stream_map", TrimSpace streamMap]

/-! ## Pipeline runner (hls.go:127-185) -/

/-- What `exec.Cmd.CombinedOutput` hands back: the combined output and the error. -/
structure EngineResult where
  out : String
  err : Option GoError

/-- The external engine: the number of invocations made before this one in
the run, the argument list and the standard input give the result. -/
abbrev Engine := Nat → List String → Option (List Nat) → EngineResult

/-- One invocation of the engine: `exec.Command("ffmpeg", args...)` with
`cmd.Stdin = stdin`. -/
structure Invocation where
  args : List String
  stdin : Option (List Nat)
deriving DecidableEq

/-- How a call ended. -/
inductive Exit where
  | returned (err : Option GoError)
  | panicked
deriving DecidableEq

/-- A finished call of `Start`: how it ended, the stream then, and the engine
invocations it made, in order. -/
structure Run where
  exit : Exit
  s : Stream
  calls : List Invocation

/-- The argument list built at hls.go:160-172 for the dequeued `a`, with the
metadata function `setMetadata` of the stream. -/
def ffmpegArgs (s : Stream) (hlsSize hlsTime : String) (bitrateArgs : List String)
    (setMetadata : Audio → String) (a : Audio) : List String :=
  let encoding := s.encoding
  let encoding := if a.OverrideEncoding != "" then a.OverrideEncoding else encoding
  let args := ["-y", "-re", "-i", "pipe:", "-c:a", encoding]
  let args := args ++ bitrateArgs
  let args := args ++ ["-hls_time", hlsTime, "-hls_list_size", hlsSize]
  let args := args ++ ["-hls_flags", "append_list+delete_segments+omit_endlist"]
  let args := args ++ ["-metadata", "title=" ++ setMetadata a]
  let args := args ++ ["-master_pl_name", s.masterPlaylistName]
  let args := args ++ ["-hls_segment_filename", s.segmentFilename, s.playlistName]
  args

/-- The `for` loop of `execFFmpeg` (hls.go:144-184).  The first argument
bounds the number of iterations; `none` means the loop is still running. -/
def execLoop (engine : Engine) (hlsSize hlsTime : String) (bitrateArgs : List String) :
    Nat → Stream → List Invocation → Option Run
  | 0, _, _ => none
  | fuel + 1, s, calls =>
    match s.dequeue with
    | .panic _ => some { exit := .panicked, s := s, calls := calls }
    | .ok (_, some err, s) => some { exit := .returned (some err), s := s, calls := calls }
    | .ok (a, none, s) =>
      match s.setMetadata with
      | none => some { exit := .panicked, s := s, calls := calls }
      | some setMetadata =>
        let args := ffmpegArgs s hlsSize hlsTime bitrateArgs setMetadata a
        let res := engine calls.length args a.Data
        let calls := calls ++ [{ args := args, stdin := a.Data }]
        match res.err with
        | some err =>
          some { exit := .returned (some (.wrapError
                    ("failed to processes audio " ++ a.toStr ++ " in ffmpeg: " ++ res.out ++
                      ": " ++ err.Error) err))
                 s := s, calls := calls }
        | none => execLoop engine hlsSize hlsTime bitrateArgs fuel s calls

/-- Go `(*Stream).execFFmpeg` (hls.go:137). -/
def Stream.execFFmpeg (s : Stream) (fuel : Nat) (engine : Engine) : Option Run :=
  let hlsSize := Itoa s.hlsListSize
  let hlsTime := Itoa s.hlsTime
  let bitrateArgs := bitratesToArgs s.bitrates
  execLoop engine hlsSize hlsTime bitrateArgs fuel s []

/-- Go `(*Stream).Start` (hls.go:127). -/
def Stream.Start (s : Stream) (fuel : Nat) (engine : Engine) : Option Run :=
  match s.execFFmpeg fuel engine with
  | none => none
  | some run =>
    match run.exit with
    | .returned (some err) => some { run with exit := .returned (some err) }
    | .returned none => some { run with exit := .returned none }
    | .panicked => some run

/-! ## Specification-side definitions -/

/-- The tokens `a:0`, ..., `a:<n-1>` of the variant stream map. -/
def streamMapTokens (n : Nat) : List String :=
  (List.range n).map (fun (i : Nat) => "a:" ++ Itoa i)

/-- The argument fragment the specification describes for a ladder: four
elements per index, then `-var_stream_map` and the space-joined tokens. -/
def bitratesToArgsSpec (rates : List String) : List String :=
  (List.range rates.length).flatMap
      (fun i => ["-b:a:" ++ Itoa i, rates.getD i "", "-map", "a:0"]) ++
    ["-var_stream_map", " ".intercalate (streamMapTokens rates.length)]

/-- Calling `Append` once for each item of `xs`, in order. -/
def appendAll : Stream → List Audio → Res Stream
  | s, [] => .ok s
  | s, a :: xs =>
    match s.Append a with
    | .ok s1 => appendAll s1 xs
    | .panic msg => .panic msg

/-- Calling `dequeue` `n` times: the pairs returned, in order, and the stream
after the last call. -/
def dequeueN : Stream → Nat → Res (List (Audio × Option GoError) × Stream)
  | s, 0 => .ok ([], s)
  | s, n + 1 =>
    match s.dequeue with
    | .panic msg => .panic msg
    | .ok (a, err, s1) =>
      match dequeueN s1 n with
      | .panic msg => .panic msg
      | .ok (rs, s2) => .ok ((a, err) :: rs, s2)

/-- The error `execFFmpeg` returns when the engine fails on `a` with the
combined output `out` and the error `err` (hls.go:180). -/
def engineFailure (a : Audio) (out : String) (err : GoError) : GoError :=
  .wrapError ("failed to processes audio " ++ a.toStr ++ " in ffmpeg: " ++ out ++ ": " ++ err.Error)
    err

/-! ## Sample values -/

def audioA : Audio := { Audio.zero with ID := 1, Artist := "Foo", Title := "Bar" }
def audioB : Audio := { Audio.zero with ID := 2, Artist := "Baz", Title := "Qux", OverrideEncoding := "mp3" }
def audioC : Audio := { Audio.zero with ID := 3, Artist := "Artist", Title := "Title" }

/-- An engine that succeeds on every invocation. -/
def okEngine : Engine := fun _ _ _ => { out := "", err := none }

/-- An engine that fails on invocation `k` only. -/
def failAt (k : Nat) : Engine := fun i _ _ =>
  if i = k then { out := "boom", err := some (.errorsNew "exit status 1") }
  else { out := "", err := none }

/-! ## Lemmas: decimal text -/

theorem Itoa_natCast (n : Nat) : Itoa (n : Int) = Nat.repr n := rfl

theorem isSpace_digitChar (d : Nat) (h : d < 10) : isSpace (Nat.digitChar d) = false := by
  interval_cases d <;> decide

theorem toDigitsCore_noSpace (fuel : Nat) :
    ∀ (n : Nat) (acc : List Char), (∀ c ∈ acc, isSpace c = false) →
      ∀ c ∈ Nat.toDigitsCore 10 fuel n acc, isSpace c = false := by
  induction fuel with
  | zero => intro n acc h; simpa [Nat.toDigitsCore] using h
  | succ fuel ih =>
    intro n acc h
    have hd : isSpace (Nat.digitChar (n % 10)) = false :=
      isSpace_digitChar _ (Nat.mod_lt _ (by decide))
    have hacc : ∀ c ∈ Nat.digitChar (n % 10) :: acc, isSpace c = false := by
      intro c hc
      rcases List.mem_cons.mp hc with rfl | hc
      · exact hd
      · exact h c hc
    simp only [Nat.toDigitsCore]
    split
    · exact hacc
    · exact ih _ _ hacc

theorem toDigitsCore_length_ge (fuel : Nat) :
    ∀ (n : Nat) (acc : List Char), acc.length ≤ (Nat.toDigitsCore 10 fuel n acc).length := by
  induction fuel with
  | zero => intro n acc; simp [Nat.toDigitsCore]
  | succ fuel ih =>
    intro n acc
    simp only [Nat.toDigitsCore]
    split
    · simp
    · exact le_trans (by simp) (ih _ _)

theorem repr_noSpace (n : Nat) : ∀ c ∈ (Nat.repr n).data, isSpace c = false := by
  intro c hc
  exact toDigitsCore_noSpace (n + 1) n [] (by simp) c (by simpa [Nat.repr, Nat.toDigits] using hc)

theorem repr_ne_nil (n : Nat) : (Nat.repr n).data ≠ [] := by
  have h : 1 ≤ (Nat.toDigitsCore 10 (n + 1) n []).length := by
    simp only [Nat.toDigitsCore]
    split
    · simp
    · exact le_trans (by simp) (toDigitsCore_length_ge n (n / 10) [Nat.digitChar (n % 10)])
  intro h0
  simp [Nat.repr, Nat.toDigits, List.asString] at h0
  rw [h0] at h
  simp at h

/-! ## Lemmas: the bitrate ladder -/

theorem bitratesLoop_fst (rates : List String) :
    ∀ (i : Nat) (inputs : List String) (streamMap : String),
      (bitratesLoop rates i inputs streamMap).1 =
        inputs ++ (List.range rates.length).flatMap
          (fun j => ["-b:a:" ++ Nat.repr (i + j), rates.getD j "", "-map", "a:0"]) := by
  induction rates with
  | nil => intro i inputs streamMap; simp [bitratesLoop]
  | cons r rates ih =>
    intro i inputs streamMap
    simp only [bitratesLoop, ih, List.length_cons, List.range_succ_eq_map, List.flatMap_cons,
      List.flatMap_map, Itoa_natCast, List.append_assoc]
    simp [Nat.add_assoc, Nat.add_comm 1]

theorem bitratesLoop_snd (rates : List String) :
    ∀ (i : Nat) (inputs : List String) (streamMap : String),
      (bitratesLoop rates i inputs streamMap).2.data =
        streamMap.data ++ (List.range rates.length).flatMap
          (fun j => ' ' :: ("a:" ++ Nat.repr (i + j)).data) := by
  induction rates with
  | nil => intro i inputs streamMap; simp [bitratesLoop]
  | cons r rates ih =>
    intro i inputs streamMap
    simp only [bitratesLoop, ih, List.length_cons, List.range_succ_eq_map, List.flatMap_cons,
      List.flatMap_map, Itoa_natCast, List.append_assoc, String.data_append]
    simp [Nat.add_assoc, Nat.add_comm 1]

theorem intercalate_go_data (sep : String) (l : List String) :
    ∀ acc : String, (String.intercalate.go acc sep l).data =
      acc.data ++ l.flatMap (fun t => sep.data ++ t.data) := by
  induction l with
  | nil => intro acc; simp [String.intercalate.go]
  | cons t l ih => intro acc; simp [String.intercalate.go, ih, String.data_append]

theorem join_ends_noSpace (ts : List String) :
    ∀ t : String, (t.data ≠ [] ∧ ∀ c ∈ t.data, isSpace c = false) →
      (∀ u ∈ ts, u.data ≠ [] ∧ ∀ c ∈ u.data, isSpace c = false) →
      ∃ init c, t.data ++ ts.flatMap (fun u => ' ' :: u.data) = init ++ [c] ∧
        isSpace c = false := by
  induction ts with
  | nil =>
    intro t ht _
    rcases List.eq_nil_or_concat t.data with h | ⟨init, c, h⟩
    · exact absurd h ht.1
    · exact ⟨init, c, by simp [h], ht.2 c (by simp [h])⟩
  | cons u ts ih =>
    intro t _ hts
    obtain ⟨init, c, h, hc⟩ := ih u (hts u (by simp)) (fun v hv => hts v (by simp [hv]))
    refine ⟨t.data ++ ' ' :: init, c, ?_, hc⟩
    simp only [List.flatMap_cons, List.cons_append, List.append_assoc]
    rw [h]

theorem TrimSpace_join (toks : List String)
    (htoks : ∀ t ∈ toks, t.data ≠ [] ∧ ∀ c ∈ t.data, isSpace c = false)
    (streamMap : String)
    (hsm : streamMap.data = toks.flatMap (fun t => ' ' :: t.data)) :
    TrimSpace streamMap = " ".intercalate toks := by
  cases toks with
  | nil =>
    apply String.ext
    simp [TrimSpace, hsm, String.intercalate, List.rdropWhile]
  | cons t ts =>
    have ht := htoks t (by simp)
    have hJ : (" ".intercalate (t :: ts)).data = t.data ++ ts.flatMap (fun u => ' ' :: u.data) := by
      simp [String.intercalate, intercalate_go_data]
    obtain ⟨init, c, hend, hc⟩ :=
      join_ends_noSpace ts t ht (fun u hu => htoks u (by simp [hu]))
    obtain ⟨a, as, ha⟩ := List.exists_cons_of_ne_nil ht.1
    have hsp : isSpace a = false := ht.2 a (by simp [ha])
    apply String.ext
    rw [hJ]
    simp only [TrimSpace, hsm, List.flatMap_cons]
    have h1 : List.dropWhile isSpace (' ' :: t.data ++ ts.flatMap (fun u => ' ' :: u.data)) =
        t.data ++ ts.flatMap (fun u => ' ' :: u.data) := by
      rw [ha]
      have hs : isSpace ' ' = true := by decide
      simp [List.dropWhile, hs, hsp]
    rw [h1, hend]
    exact List.rdropWhile_concat_neg _ _ _ (by simp [hc])

theorem streamMapTokens_noSpace (n : Nat) :
    ∀ t ∈ streamMapTokens n, t.data ≠ [] ∧ ∀ c ∈ t.data, isSpace c = false := by
  intro t ht
  simp only [streamMapTokens, List.mem_map, List.mem_range, Itoa_natCast] at ht
  obtain ⟨i, _, rfl⟩ := ht
  refine ⟨by simp, ?_⟩
  intro c hc
  simp only [String.data_append, List.mem_append] at hc
  rcases hc with hc | hc
  · have : c = 'a' ∨ c = ':' := by simpa using hc
    rcases this with rfl | rfl <;> decide
  · exact repr_noSpace i c hc

theorem bitratesToArgs_eq_spec (rates : List String) :
    bitratesToArgs rates = bitratesToArgsSpec rates := by
  have h1 := bitratesLoop_fst rates 0 [] ""
  have h2 := bitratesLoop_snd rates 0 [] ""
  have h3 : TrimSpace (bitratesLoop rates 0 [] "").2 =
      " ".intercalate (streamMapTokens rates.length) := by
    apply TrimSpace_join _ (streamMapTokens_noSpace _)
    rw [h2]
    simp [streamMapTokens, List.flatMap_map, Itoa_natCast]
  simp only [bitratesToArgs, bitratesToArgsSpec, h1, h3]
  simp [Itoa_natCast]

theorem bitratesToArgsSpec_length (rates : List String) :
    (bitratesToArgsSpec rates).length = 4 * rates.length + 2 := by
  have h : ∀ n : Nat, ((List.range n).flatMap
      (fun i => ["-b:a:" ++ Itoa i, rates.getD i "", "-map", "a:0"])).length = 4 * n := by
    intro n
    induction n with
    | zero => simp
    | succ n ih =>
      rw [List.range_succ, List.flatMap_append, List.length_append, ih]
      simp [List.flatMap]
      omega
  rw [bitratesToArgsSpec, List.length_append, h]
  rfl

/-! ## Lemmas: the queue -/

theorem withQueue_queue (s : Stream) (q : List Audio) : (s.withQueue q).queue = q := rfl
theorem withQueue_audioMux (s : Stream) (q : List Audio) :
    (s.withQueue q).audioMux = s.audioMux := rfl
theorem withQueue_setMetadata (s : Stream) (q : List Audio) :
    (s.withQueue q).setMetadata = s.setMetadata := rfl
theorem withQueue_withQueue (s : Stream) (q r : List Audio) :
    (s.withQueue q).withQueue r = s.withQueue r := rfl
theorem withQueue_self (s : Stream) (q : List Audio) (h : s.queue = q) : s.withQueue q = s := by
  cases s
  simp only at h
  subst h
  rfl
theorem ffmpegArgs_withQueue (s : Stream) (q : List Audio) (hs ht : String)
    (ba : List String) (f : Audio → String) (a : Audio) :
    ffmpegArgs (s.withQueue q) hs ht ba f a = ffmpegArgs s hs ht ba f a := rfl

theorem Append_ok (s : Stream) (a : Audio) (hmux : s.audioMux ≠ none) :
    s.Append a = .ok (s.withQueue (s.queue ++ [a])) := by
  unfold Stream.Append
  split
  · contradiction
  · rfl

theorem dequeue_nil (s : Stream) (hmux : s.audioMux ≠ none) (hq : s.queue = []) :
    s.dequeue = .ok (Audio.zero, some .ErrNoAudioInQueue, s) := by
  unfold Stream.dequeue
  split
  · contradiction
  · simp [hq]

theorem dequeue_cons (s : Stream) (a : Audio) (rest : List Audio) (hmux : s.audioMux ≠ none)
    (hq : s.queue = a :: rest) :
    s.dequeue = .ok (a, none, s.withQueue rest) := by
  unfold Stream.dequeue
  split
  · contradiction
  · simp [hq]

theorem appendAll_ok (xs : List Audio) :
    ∀ s : Stream, s.audioMux ≠ none →
      appendAll s xs = .ok (s.withQueue (s.queue ++ xs)) := by
  induction xs with
  | nil => intro s _; simp [appendAll, withQueue_self]
  | cons a xs ih =>
    intro s hmux
    rw [appendAll, Append_ok s a hmux]
    simp only []
    rw [ih (s.withQueue (s.queue ++ [a])) hmux]
    simp [withQueue_queue, withQueue_withQueue]

theorem dequeueN_ok (xs : List Audio) :
    ∀ (s : Stream) (rest : List Audio), s.audioMux ≠ none → s.queue = xs ++ rest →
      dequeueN s xs.length = .ok (xs.map (fun a => (a, none)), s.withQueue rest) := by
  induction xs with
  | nil =>
    intro s rest _ hq
    simp [dequeueN, withQueue_self s rest (by simpa using hq)]
  | cons a xs ih =>
    intro s rest hmux hq
    rw [List.length_cons, dequeueN, dequeue_cons s a (xs ++ rest) hmux (by simpa using hq)]
    simp only []
    rw [ih (s.withQueue (xs ++ rest)) rest hmux rfl]
    simp [withQueue_withQueue]

/-! ## Lemmas: the pipeline runner -/

theorem execLoop_nil (engine : Engine) (hs ht : String) (ba : List String) (fuel : Nat)
    (s : Stream) (calls : List Invocation) (hmux : s.audioMux ≠ none) (hq : s.queue = []) :
    execLoop engine hs ht ba (fuel + 1) s calls =
      some { exit := .returned (some .ErrNoAudioInQueue), s := s, calls := calls } := by
  rw [execLoop, dequeue_nil s hmux hq]

theorem execLoop_cons (engine : Engine) (hs ht : String) (ba : List String) (fuel : Nat)
    (s : Stream) (calls : List Invocation) (f : Audio → String) (a : Audio) (rest : List Audio)
    (hmux : s.audioMux ≠ none) (hmeta : s.setMetadata = some f) (hq : s.queue = a :: rest) :
    execLoop engine hs ht ba (fuel + 1) s calls =
      match (engine calls.length (ffmpegArgs s hs ht ba f a) a.Data).err with
      | some err =>
        some { exit := .returned (some (engineFailure a
                  (engine calls.length (ffmpegArgs s hs ht ba f a) a.Data).out err))
               s := s.withQueue rest
               calls := calls ++ [{ args := ffmpegArgs s hs ht ba f a, stdin := a.Data }] }
      | none =>
        execLoop engine hs ht ba fuel (s.withQueue rest)
          (calls ++ [{ args := ffmpegArgs s hs ht ba f a, stdin := a.Data }]) := by
  rw [execLoop, dequeue_cons s a rest hmux hq]
  simp only [withQueue_setMetadata, hmeta, ffmpegArgs_withQueue]
  rfl

theorem execLoop_spec (engine : Engine) (hs ht : String) (ba : List String)
    (f : Audio → String) (xs : List Audio) :
    ∀ (s : Stream) (calls : List Invocation) (fuel : Nat),
      s.audioMux ≠ none → s.setMetadata = some f → s.queue = xs → xs.length < fuel →
      ((∀ i a, xs[i]? = some a →
            (engine (calls.length + i) (ffmpegArgs s hs ht ba f a) a.Data).err = none) ∧
          execLoop engine hs ht ba fuel s calls =
            some { exit := .returned (some .ErrNoAudioInQueue)
                   s := s.withQueue []
                   calls := calls ++ xs.map
                     (fun a => { args := ffmpegArgs s hs ht ba f a, stdin := a.Data }) }) ∨
        (∃ k ak e, xs[k]? = some ak ∧
          (∀ i a, i < k → xs[i]? = some a →
            (engine (calls.length + i) (ffmpegArgs s hs ht ba f a) a.Data).err = none) ∧
          (engine (calls.length + k) (ffmpegArgs s hs ht ba f ak) ak.Data).err = some e ∧
          execLoop engine hs ht ba fuel s calls =
            some { exit := .returned (some (engineFailure ak
                      (engine (calls.length + k) (ffmpegArgs s hs ht ba f ak) ak.Data).out e))
                   s := s.withQueue (xs.drop (k + 1))
                   calls := calls ++ (xs.take (k + 1)).map
                     (fun a => { args := ffmpegArgs s hs ht ba f a, stdin := a.Data }) }) := by
  induction xs with
  | nil =>
    intro s calls fuel hmux _ hq hfuel
    obtain ⟨fuel, rfl⟩ : ∃ n, fuel = n + 1 := ⟨fuel - 1, by omega⟩
    left
    refine ⟨by simp, ?_⟩
    rw [execLoop_nil engine hs ht ba fuel s calls hmux hq, withQueue_self s [] hq]
    simp
  | cons a xs ih =>
    intro s calls fuel hmux hmeta hq hfuel
    obtain ⟨fuel, rfl⟩ : ∃ n, fuel = n + 1 := ⟨fuel - 1, by omega⟩
    have hstep := execLoop_cons engine hs ht ba fuel s calls f a xs hmux hmeta hq
    cases herr : (engine calls.length (ffmpegArgs s hs ht ba f a) a.Data).err with
    | some e =>
      right
      refine ⟨0, a, e, by simp, by simp, by simpa using herr, ?_⟩
      rw [hstep]
      simp only [herr]
      simp
    | none =>
      rw [herr] at hstep
      simp only at hstep
      have hlen : (calls ++ [({ args := ffmpegArgs s hs ht ba f a, stdin := a.Data } :
          Invocation)]).length = calls.length + 1 := by simp
      rcases ih (s.withQueue xs)
          (calls ++ [{ args := ffmpegArgs s hs ht ba f a, stdin := a.Data }]) fuel hmux hmeta rfl
          (by simpa using hfuel) with ⟨hall, hrun⟩ | ⟨k, ak, e, hk, hbefore, hfail, hrun⟩
      · left
        refine ⟨?_, ?_⟩
        · intro i b hi
          cases i with
          | zero =>
            simp only [List.getElem?_cons_zero, Option.some.injEq] at hi
            subst hi
            simpa using herr
          | succ i =>
            have := hall i b (by simpa using hi)
            rw [hlen] at this
            simpa [Nat.add_assoc, Nat.add_comm 1] using this
        · rw [hstep, hrun]
          simp [withQueue_withQueue, ffmpegArgs_withQueue]
      · right
        rw [hlen] at hfail hrun
        refine ⟨k + 1, ak, e, by simpa using hk, ?_, ?_, ?_⟩
        · intro i b hi hb
          cases i with
          | zero =>
            simp only [List.getElem?_cons_zero, Option.some.injEq] at hb
            subst hb
            simpa using herr
          | succ i =>
            have := hbefore i b (by omega) (by simpa using hb)
            rw [hlen] at this
            simpa [Nat.add_assoc, Nat.add_comm 1] using this
        · simpa [Nat.add_assoc, Nat.add_comm 1] using hfail
        · rw [hstep, hrun]
          simp [Nat.add_assoc, Nat.add_comm 1, withQueue_withQueue, ffmpegArgs_withQueue]

theorem Start_eq_execFFmpeg (s : Stream) (fuel : Nat) (engine : Engine) :
    s.Start fuel engine = s.execFFmpeg fuel engine := by
  unfold Stream.Start
  cases s.execFFmpeg fuel engine with
  | none => rfl
  | some run =>
    obtain ⟨exit, s1, calls⟩ := run
    cases exit with
    | panicked => rfl
    | returned err => cases err <;> rfl

theorem ffmpegArgs_eq (s : Stream) (f : Audio → String) (a : Audio) :
    ffmpegArgs s (Itoa s.hlsListSize) (Itoa s.hlsTime) (bitratesToArgs s.bitrates) f a =
      ["-y", "-re", "-i", "pipe:", "-c:a",
          if a.OverrideEncoding ≠ "" then a.OverrideEncoding else s.encoding] ++
        bitratesToArgs s.bitrates ++
        ["-hls_time", Itoa s.hlsTime, "-hls_list_size", Itoa s.hlsListSize,
          "-hls_flags", "append_list+delete_segments+omit_endlist",
          "-metadata", "title=" ++ f a,
          "-master_pl_name", s.masterPlaylistName,
          "-hls_segment_filename", s.segmentFilename, s.playlistName] := by
  by_cases h : a.OverrideEncoding = "" <;> simp [ffmpegArgs, h]

theorem applyOpts_master (post : List StreamOption)
    (hpost : ∀ o ∈ post, ∀ s : Stream, (o s).masterPlaylistName = s.masterPlaylistName) :
    ∀ s : Stream, (applyOpts post s).masterPlaylistName = s.masterPlaylistName := by
  induction post with
  | nil => intro s; rfl
  | cons o post ih =>
    intro s
    have h1 : applyOpts (o :: post) s = applyOpts post (o s) := rfl
    rw [h1, ih (fun p hp => hpost p (by simp [hp])) (o s), hpost o (by simp) s]

theorem Start_spec (engine : Engine) (f : Audio → String) (s : Stream) (fuel : Nat)
    (hmux : s.audioMux ≠ none) (hmeta : s.setMetadata = some f) (hfuel : s.queue.length < fuel) :
    ((∀ i a, s.queue[i]? = some a →
          (engine i (ffmpegArgs s (Itoa s.hlsListSize) (Itoa s.hlsTime)
            (bitratesToArgs s.bitrates) f a) a.Data).err = none) ∧
        s.Start fuel engine =
          some { exit := .returned (some .ErrNoAudioInQueue)
                 s := s.withQueue []
                 calls := s.queue.map
                   (fun a => { args := ffmpegArgs s (Itoa s.hlsListSize) (Itoa s.hlsTime)
                                 (bitratesToArgs s.bitrates) f a, stdin := a.Data }) }) ∨
      (∃ k ak e, s.queue[k]? = some ak ∧
        (∀ i a, i < k → s.queue[i]? = some a →
          (engine i (ffmpegArgs s (Itoa s.hlsListSize) (Itoa s.hlsTime)
            (bitratesToArgs s.bitrates) f a) a.Data).err = none) ∧
        (engine k (ffmpegArgs s (Itoa s.hlsListSize) (Itoa s.hlsTime)
          (bitratesToArgs s.bitrates) f ak) ak.Data).err = some e ∧
        s.Start fuel engine =
          some { exit := .returned (some (engineFailure ak
                    (engine k (ffmpegArgs s (Itoa s.hlsListSize) (Itoa s.hlsTime)
                      (bitratesToArgs s.bitrates) f ak) ak.Data).out e))
                 s := s.withQueue (s.queue.drop (k + 1))
                 calls := (s.queue.take (k + 1)).map
                   (fun a => { args := ffmpegArgs s (Itoa s.hlsListSize) (Itoa s.hlsTime)
                                 (bitratesToArgs s.bitrates) f a, stdin := a.Data }) }) := by
  have h := execLoop_spec engine (Itoa s.hlsListSize) (Itoa s.hlsTime) (bitratesToArgs s.bitrates)
    f s.queue s [] fuel hmux hmeta rfl hfuel
  simp only [List.length_nil, Nat.zero_add, List.nil_append] at h
  rw [Start_eq_execFFmpeg]
  exact h

theorem NewStream_nil (bitrates : List String) :
    NewStream bitrates [] = (initStream bitrates, none) := by
  have hdir : Dir "master.m3u8" = "." := by decide
  unfold NewStream
  simp only [applyOpts, List.foldl_nil, initStream, DefaultMasterPlaylistName, hdir]
  rfl

theorem applyOpts_hls (opts : List StreamOption)
    (hopts : ∀ o ∈ opts, ∀ t : Stream,
      (o t).hlsListSize = t.hlsListSize ∧ (o t).hlsTime = t.hlsTime) :
    ∀ s : Stream, (applyOpts opts s).hlsListSize = s.hlsListSize ∧
      (applyOpts opts s).hlsTime = s.hlsTime := by
  induction opts with
  | nil => intro s; exact ⟨rfl, rfl⟩
  | cons o opts ih =>
    intro s
    have h1 : applyOpts (o :: opts) s = applyOpts opts (o s) := rfl
    have h2 := ih (fun p hp => hopts p (by simp [hp])) (o s)
    have h3 := hopts o (by simp) s
    rw [h1, h2.1, h2.2, h3.1, h3.2]
    exact ⟨rfl, rfl⟩

theorem NewStream_ok (bitrates : List String) (opts : List StreamOption) (s : Stream)
    (h : NewStream bitrates opts = (s, none)) : s = applyOpts opts (initStream bitrates) := by
  unfold NewStream at h
  simp only at h
  split at h
  · cases h
  · exact (congrArg Prod.fst h).symm

theorem ffmpegArgs_hls (s : Stream) (hs ht : String) (ba : List String)
    (f : Audio → String) (a : Audio) :
    ∃ pre post, ffmpegArgs s hs ht ba f a =
      pre ++ ["-hls_time", ht, "-hls_list_size", hs] ++ post :=
  ⟨["-y", "-re", "-i", "pipe:", "-c:a",
      if a.OverrideEncoding != "" then a.OverrideEncoding else s.encoding] ++ ba,
    ["-hls_flags", "append_list+delete_segments+omit_endlist", "-metadata", "title=" ++ f a,
      "-master_pl_name", s.masterPlaylistName, "-hls_segment_filename", s.segmentFilename,
      s.playlistName],
    by simp [ffmpegArgs]⟩

theorem execLoop_calls (engine : Engine) (hs ht : String) (ba : List String) (fuel : Nat) :
    ∀ (s : Stream) (calls : List Invocation) (run : Run),
      execLoop engine hs ht ba fuel s calls = some run →
      ∀ c ∈ run.calls, c ∈ calls ∨
        ∃ pre post, c.args = pre ++ ["-hls_time", ht, "-hls_list_size", hs] ++ post := by
  induction fuel with
  | zero => intro s calls run h; simp [execLoop] at h
  | succ fuel ih =>
    intro s calls run h c hc
    rw [execLoop] at h
    split at h
    · cases h
      exact Or.inl hc
    · cases h
      exact Or.inl hc
    · split at h
      · cases h
        exact Or.inl hc
      · simp only at h
        split at h
        · cases h
          rcases List.mem_append.mp hc with hc | hc
          · exact Or.inl hc
          · right
            rw [List.mem_singleton.mp hc]
            exact ffmpegArgs_hls _ hs ht ba _ _
        · rcases ih _ _ run h c hc with hc1 | hc1
          · rcases List.mem_append.mp hc1 with hc2 | hc2
            · exact Or.inl hc2
            · right
              rw [List.mem_singleton.mp hc2]
              exact ffmpegArgs_hls _ hs ht ba _ _
          · exact Or.inr hc1

/-! ## Lemmas: the bounds of the `filepath.Clean` loops are never reached -/

theorem copyElement_fuel (path : List Char) (fuel : Nat) :
    ∀ (fuel2 r : Nat) (out : lazybuf), path.length - r ≤ fuel → path.length - r ≤ fuel2 →
      copyElement path fuel r out = copyElement path fuel2 r out := by
  induction fuel with
  | zero =>
    intro fuel2 r out h1 _
    have hr : ¬ r < path.length := by omega
    cases fuel2 <;> simp [copyElement, hr]
  | succ fuel ih =>
    intro fuel2 r out h1 h2
    by_cases hr : r < path.length
    · obtain ⟨fuel2, rfl⟩ : ∃ n, fuel2 = n + 1 := ⟨fuel2 - 1, by omega⟩
      simp only [copyElement]
      split
      · exact ih fuel2 (r + 1) _ (by omega) (by omega)
      · rfl
    · cases fuel2 <;> simp [copyElement, hr]

theorem copyElement_le (path : List Char) (fuel : Nat) :
    ∀ (r : Nat) (out : lazybuf), r ≤ (copyElement path fuel r out).1 := by
  induction fuel with
  | zero => intro r out; simp [copyElement]
  | succ fuel ih =>
    intro r out
    simp only [copyElement]
    split
    · exact le_trans (Nat.le_succ r) (ih (r + 1) _)
    · exact le_refl r

theorem copyElement_lt (path : List Char) (fuel r : Nat) (out : lazybuf)
    (hr : r < path.length) (hsep : IsPathSeparator (byteAt path r) = false) :
    r < (copyElement path (fuel + 1) r out).1 := by
  simp only [copyElement, hr, hsep]
  exact copyElement_le path fuel (r + 1) _

theorem cleanLoop_fuel (path : List Char) (rooted : Bool) (fuel : Nat) :
    ∀ (fuel2 r dotdot : Nat) (out : lazybuf), path.length - r ≤ fuel → path.length - r ≤ fuel2 →
      cleanLoop path rooted fuel r dotdot out = cleanLoop path rooted fuel2 r dotdot out := by
  induction fuel with
  | zero =>
    intro fuel2 r dotdot out h1 _
    have hr : ¬ r < path.length := by omega
    cases fuel2 <;> simp [cleanLoop, hr]
  | succ fuel ih =>
    intro fuel2 r dotdot out h1 h2
    by_cases hr : r < path.length
    · obtain ⟨fuel2, rfl⟩ : ∃ n, fuel2 = n + 1 := ⟨fuel2 - 1, by omega⟩
      simp only [cleanLoop, hr, if_true]
      split
      · exact ih fuel2 (r + 1) _ _ (by omega) (by omega)
      · split
        · exact ih fuel2 (r + 1) _ _ (by omega) (by omega)
        · split
          · split
            · exact ih fuel2 (r + 2) _ _ (by omega) (by omega)
            · split
              · exact ih fuel2 (r + 2) _ _ (by omega) (by omega)
              · exact ih fuel2 (r + 2) _ _ (by omega) (by omega)
          · rename_i hsep _ _
            have hlt := copyElement_lt path (path.length - r - 1) r
              (if (rooted && out.w != 1) || (!rooted && out.w != 0) then out.append '/' else out)
              hr (by simpa using hsep)
            have hfuel : path.length - r - 1 + 1 = path.length - r := by omega
            rw [hfuel] at hlt
            exact ih fuel2 _ _ _ (by omega) (by omega)
    · cases fuel2 <;> simp [cleanLoop, hr]

/-! ## The claims -/

/-- C1: for every ladder `rates` of length N, `bitratesToArgs rates` is the
list of the four elements `-b:a:<i>`, `rates[i]`, `-map`, `a:0` for each index
`i` from 0 to N-1 in order, followed by `-var_stream_map` and the tokens
`a:0` ... `a:<N-1>` joined by single spaces; it has 4N+2 elements; and for
`["128k","64k"]` it is the ten-element list of the specification. -/
theorem C1_bitratesToArgs_ladder :
    (∀ rates : List String,
      bitratesToArgs rates =
          (List.range rates.length).flatMap
              (fun i => ["-b:a:" ++ Itoa i, rates.getD i "", "-map", "a:0"]) ++
            ["-var_stream_map",
              " ".intercalate ((List.range rates.length).map (fun (i : Nat) => "a:" ++ Itoa i))] ∧
        (bitratesToArgs rates).length = 4 * rates.length + 2) ∧
      bitratesToArgs ["128k", "64k"] =
        ["-b:a:0", "128k", "-map", "a:0", "-b:a:1", "64k", "-map", "a:0",
          "-var_stream_map", "a:0 a:1"] := by
  refine ⟨fun rates => ⟨bitratesToArgs_eq_spec rates, ?_⟩, by decide⟩
  rw [bitratesToArgs_eq_spec, bitratesToArgsSpec_length]

/-- C2: on a stream with an allocated mutex and an empty queue, appending the
items of `xs` in order succeeds and leaves the queue equal to `xs`; calling
`dequeue` `len(xs)` times then returns the items of `xs` in the same order,
each with a nil error, and leaves the queue empty. -/
theorem C2_queue_fifo (s : Stream) (xs : List Audio) (hmux : s.audioMux ≠ none)
    (hq : s.queue = []) :
    appendAll s xs = .ok (s.withQueue xs) ∧
      dequeueN (s.withQueue xs) xs.length =
        .ok (xs.map (fun a => (a, none)), s.withQueue []) ∧
      (s.withQueue []).QueueSize = 0 := by
  refine ⟨?_, ?_, rfl⟩
  · rw [appendAll_ok xs s hmux, hq]
    simp
  · have h := dequeueN_ok xs (s.withQueue xs) [] hmux (by simp [withQueue_queue])
    simpa [withQueue_withQueue] using h

/-- Witness of C2: A, B, C appended to a fresh stream are dequeued as A, B, C. -/
theorem C2_queue_fifo_witness :
    (initStream ["128k"]).audioMux ≠ none ∧ (initStream ["128k"]).queue = [] ∧
      appendAll (initStream ["128k"]) [audioA, audioB, audioC] =
        .ok ((initStream ["128k"]).withQueue [audioA, audioB, audioC]) ∧
      dequeueN ((initStream ["128k"]).withQueue [audioA, audioB, audioC]) 3 =
        .ok ([(audioA, none), (audioB, none), (audioC, none)], (initStream ["128k"]).withQueue []) :=
  ⟨by decide, rfl,
    (C2_queue_fifo (initStream ["128k"]) [audioA, audioB, audioC] (by decide) rfl).1,
    (C2_queue_fifo (initStream ["128k"]) [audioA, audioB, audioC] (by decide) rfl).2.1⟩

/-- C3 (as stated, refuted): the name `./master.m3u8` contains a path
separator, yet `NewStream` returns no error and a configured stream. -/
theorem C3_counterexample :
    '/' ∈ "./master.m3u8".data ∧
      (NewStream ["128k", "64k"] [WithMasterPlaylistName "./master.m3u8"]).2 = none ∧
      (NewStream ["128k", "64k"] [WithMasterPlaylistName "./master.m3u8"]).1.masterPlaylistName =
        "./master.m3u8" := by
  refine ⟨by decide, by decide, by decide⟩

/-- C3 (amended): for every master playlist name whose directory part
`filepath.Dir(name)` is not `.`, every ladder and all other options (those
applied after it leaving the master playlist name alone), `NewStream` returns
the zero-value `Stream` and the error with the text "master playlist cannot
have a directory, it must be root. ffmpeg limitation". -/
theorem C3_NewStream_rejects_directory (bitrates : List String) (pre post : List StreamOption)
    (name : String) (hdir : Dir name ≠ ".")
    (hpost : ∀ o ∈ post, ∀ s : Stream, (o s).masterPlaylistName = s.masterPlaylistName) :
    NewStream bitrates (pre ++ [WithMasterPlaylistName name] ++ post) =
        (Stream.zero, some (.errorsNew
          "master playlist cannot have a directory, it must be root. ffmpeg limitation")) ∧
      ((NewStream bitrates (pre ++ [WithMasterPlaylistName name] ++ post)).2.map GoError.Error =
        some "master playlist cannot have a directory, it must be root. ffmpeg limitation") := by
  have hname : (applyOpts (pre ++ [WithMasterPlaylistName name] ++ post)
      (initStream bitrates)).masterPlaylistName = name := by
    have h1 : applyOpts (pre ++ [WithMasterPlaylistName name] ++ post) (initStream bitrates) =
        applyOpts post (WithMasterPlaylistName name (applyOpts pre (initStream bitrates))) := by
      simp [applyOpts, List.foldl_append]
    rw [h1, applyOpts_master post hpost]
    rfl
  have h : NewStream bitrates (pre ++ [WithMasterPlaylistName name] ++ post) =
      (Stream.zero, some (.errorsNew
        "master playlist cannot have a directory, it must be root. ffmpeg limitation")) := by
    unfold NewStream
    simp only [hname]
    rw [if_pos (by simpa using hdir)]
  rw [h]
  exact ⟨rfl, rfl⟩

/-- Witness of C3: the call of `TestNewStreamErrorWhenMasterPlaylistPointToDirectory`. -/
theorem C3_NewStream_rejects_directory_witness :
    Dir "hello/master.m3u8" ≠ "." ∧
      NewStream ["128k", "64k"] ([] ++ [WithMasterPlaylistName "hello/master.m3u8"] ++ [WithDebug]) =
        (Stream.zero, some (.errorsNew
          "master playlist cannot have a directory, it must be root. ffmpeg limitation")) :=
  ⟨by decide,
    (C3_NewStream_rejects_directory ["128k", "64k"] [] [WithDebug] "hello/master.m3u8"
      (by decide) (by intro o ho s; simp at ho; subst ho; rfl)).1⟩

/-- C6: on a stream with an allocated mutex, `dequeue` on an empty queue
returns the zero `Audio` and `ErrNoAudioInQueue` and leaves the stream as it
was; on a queue `a :: rest` it returns `a` with a nil error and leaves a stream
that differs only in its queue, which is `rest`, one item shorter. -/
theorem C6_dequeue (s : Stream) (hmux : s.audioMux ≠ none) :
    (s.queue = [] → s.dequeue = .ok (Audio.zero, some .ErrNoAudioInQueue, s)) ∧
      (∀ a rest, s.queue = a :: rest →
        s.dequeue = .ok (a, none, s.withQueue rest) ∧
          (s.withQueue rest).QueueSize + 1 = s.QueueSize) := by
  refine ⟨dequeue_nil s hmux, fun a rest hq => ⟨dequeue_cons s a rest hmux hq, ?_⟩⟩
  simp [Stream.QueueSize, hq, withQueue_queue]

/-- Witness of C6: a fresh stream, and the same stream holding A and B. -/
theorem C6_dequeue_witness :
    (initStream ["128k"]).audioMux ≠ none ∧
      (initStream ["128k"]).dequeue =
        .ok (Audio.zero, some .ErrNoAudioInQueue, initStream ["128k"]) :=
  ⟨by decide, (C6_dequeue (initStream ["128k"]) (by decide)).1 rfl⟩

/-- C8: for every ladder, `NewStream` with no options returns a nil error and
the stream holding the ladder, an empty queue and the defaults: encoding
`aac`, hlsListSize 80, hlsTime 5, the default segment, playlist and master
playlist names, a dequeued timeout of one second, logging off and the
metadata function `Artist + " - " + Title`. -/
theorem C8_NewStream_defaults (bitrates : List String) :
    NewStream bitrates [] =
      ({ encoding := "aac"
         bitrates := bitrates
         hlsListSize := 80
         hlsTime := 5
         segmentFilename := "hls-%v/hls-segment-%06d.ts"
         playlistName := "hls-%v/hls-playlist.m3u8"
         masterPlaylistName := "master.m3u8"
         dequeuedTimeout := 1000000000
         isLogging := false
         setMetadata := some (fun a => a.Artist ++ " - " ++ a.Title)
         queue := []
         dequeued := some {}
         buffer := some []
         audioMux := some {} }, none) := by
  rw [NewStream_nil]
  rfl

/-- C4: on a stream with an allocated mutex, (a) with an empty queue `Start`
returns `ErrNoAudioInQueue` without invoking the engine; (b) with a metadata
function set, a queue of n items and an engine that succeeds on every
invocation, `Start` terminates (any bound above n is enough), returns
`ErrNoAudioInQueue`, not nil, leaves the queue empty, and has invoked the
engine exactly n times, once per item in queue order. -/
theorem C4_Start_drains (s : Stream) (engine : Engine) (hmux : s.audioMux ≠ none) :
    (s.queue = [] → ∀ fuel, 0 < fuel →
        s.Start fuel engine =
          some { exit := .returned (some .ErrNoAudioInQueue), s := s, calls := [] }) ∧
      (∀ f, s.setMetadata = some f → (∀ i args stdin, (engine i args stdin).err = none) →
        ∀ fuel, s.queue.length < fuel →
          ∃ run, s.Start fuel engine = some run ∧
            run.exit = .returned (some .ErrNoAudioInQueue) ∧
            run.exit ≠ .returned none ∧
            run.s = s.withQueue [] ∧
            run.s.QueueSize = 0 ∧
            run.calls.length = s.queue.length ∧
            run.calls = s.queue.map
              (fun a => { args := ffmpegArgs s (Itoa s.hlsListSize) (Itoa s.hlsTime)
                            (bitratesToArgs s.bitrates) f a, stdin := a.Data })) := by
  constructor
  · intro hq fuel hfuel
    obtain ⟨fuel, rfl⟩ : ∃ n, fuel = n + 1 := ⟨fuel - 1, by omega⟩
    rw [Start_eq_execFFmpeg]
    exact execLoop_nil engine _ _ _ fuel s [] hmux hq
  · intro f hmeta hok fuel hfuel
    rcases Start_spec engine f s fuel hmux hmeta hfuel with ⟨_, hrun⟩ | ⟨k, ak, e, _, _, hfail, _⟩
    · exact ⟨_, hrun, rfl, by simp, rfl, rfl, by simp, rfl⟩
    · rw [hok] at hfail
      cases hfail

/-- Witness of C4: a fresh stream holding A and B, and an engine that never fails. -/
theorem C4_Start_drains_witness :
    ((initStream ["128k"]).withQueue [audioA, audioB]).audioMux ≠ none ∧
      (∀ i args stdin, (okEngine i args stdin).err = none) ∧
      ∃ run, ((initStream ["128k"]).withQueue [audioA, audioB]).Start 3 okEngine = some run ∧
        run.exit = .returned (some .ErrNoAudioInQueue) ∧
        run.calls.length = 2 :=
  ⟨by decide, fun _ _ _ => rfl,
    let ⟨run, h1, h2, _, _, _, h3, _⟩ :=
      (C4_Start_drains ((initStream ["128k"]).withQueue [audioA, audioB]) okEngine
        (by decide)).2 defaultMetadataTitle rfl (fun _ _ _ => rfl) 3 (by decide)
    ⟨run, h1, h2, h3⟩⟩

/-- C5: on a stream with an allocated mutex and a metadata function set, if
the engine succeeds on the items at positions below `k` and fails on the item
at position `k` with the error `e`, then `Start` terminates and returns an
error that wraps `e` and whose text holds the captured combined output; the
engine has been invoked exactly `k+1` times, on the items 0..k in order, and
the queue holds exactly the items after position `k`, in their order. -/
theorem C5_engine_failure_fatal (s : Stream) (engine : Engine) (f : Audio → String)
    (k : Nat) (ak : Audio) (e : GoError)
    (hmux : s.audioMux ≠ none) (hmeta : s.setMetadata = some f)
    (hk : s.queue[k]? = some ak)
    (hbefore : ∀ i a, i < k → s.queue[i]? = some a →
      (engine i (ffmpegArgs s (Itoa s.hlsListSize) (Itoa s.hlsTime)
        (bitratesToArgs s.bitrates) f a) a.Data).err = none)
    (hfail : (engine k (ffmpegArgs s (Itoa s.hlsListSize) (Itoa s.hlsTime)
        (bitratesToArgs s.bitrates) f ak) ak.Data).err = some e)
    (fuel : Nat) (hfuel : s.queue.length < fuel) :
    ∃ run err, s.Start fuel engine = some run ∧
      run.exit = .returned (some err) ∧
      err.Unwrap = some e ∧
      err.Error = "failed to processes audio " ++ ak.toStr ++ " in ffmpeg: " ++
        (engine k (ffmpegArgs s (Itoa s.hlsListSize) (Itoa s.hlsTime)
          (bitratesToArgs s.bitrates) f ak) ak.Data).out ++ ": " ++ e.Error ∧
      run.calls.length = k + 1 ∧
      run.calls = (s.queue.take (k + 1)).map
        (fun a => { args := ffmpegArgs s (Itoa s.hlsListSize) (Itoa s.hlsTime)
                      (bitratesToArgs s.bitrates) f a, stdin := a.Data }) ∧
      run.s = s.withQueue (s.queue.drop (k + 1)) ∧
      run.s.queue = s.queue.drop (k + 1) := by
  have hklt : k < s.queue.length := by
    rcases Nat.lt_or_ge k s.queue.length with h | h
    · exact h
    · rw [List.getElem?_eq_none h] at hk
      cases hk
  rcases Start_spec engine f s fuel hmux hmeta hfuel with
    ⟨hall, _⟩ | ⟨k', ak', e', hk', hbefore', hfail', hrun⟩
  · rw [hall k ak hk] at hfail
    cases hfail
  · have hkk : k' = k := by
      rcases Nat.lt_trichotomy k' k with h | h | h
      · rw [hbefore k' ak' h hk'] at hfail'
        cases hfail'
      · exact h
      · rw [hbefore' k ak h hk] at hfail
        cases hfail
    subst hkk
    rw [hk] at hk'
    cases hk'
    rw [hfail] at hfail'
    cases hfail'
    refine ⟨_, _, hrun, rfl, rfl, rfl, ?_, rfl, rfl, rfl⟩
    simp only [List.length_map, List.length_take]
    omega

/-- Witness of C5: A, B, C queued and an engine that fails on the second invocation. -/
theorem C5_engine_failure_fatal_witness :
    ∃ run err, ((initStream ["128k"]).withQueue [audioA, audioB, audioC]).Start 4 (failAt 1) =
        some run ∧
      run.exit = .returned (some err) ∧
      err.Unwrap = some (.errorsNew "exit status 1") ∧
      run.calls.length = 2 ∧
      run.s.queue = [audioC] :=
  let ⟨run, err, h1, h2, h3, _, h4, _, _, h5⟩ :=
    C5_engine_failure_fatal ((initStream ["128k"]).withQueue [audioA, audioB, audioC]) (failAt 1)
      defaultMetadataTitle 1 audioB (.errorsNew "exit status 1")
      (by decide) rfl rfl
      (by
        intro i a hi _
        have h0 : i = 0 := by omega
        subst h0
        rfl)
      rfl 4 (by decide)
  ⟨run, err, h1, h2, h3, h4, h5⟩

/-- C7: on a stream with an allocated mutex and the metadata function `f`,
every run of `Start` hands the engine, for each item `a` it dequeues (the
first `j` items of the queue, `j > 0` when the queue is not empty), exactly
the list `-y -re -i pipe: -c:a <codec>`, the ladder fragment, `-hls_time`,
`-hls_list_size`, `-hls_flags`, `-metadata title=<f a>`, `-master_pl_name`,
`-hls_segment_filename` and the playlist name, where the codec is
`a.OverrideEncoding` when non-empty and the configured encoding otherwise;
a stream made by `NewStream` without options has the encoding `aac` and the
metadata function `Artist + " - " + Title`. -/
theorem C7_engine_arguments (s : Stream) (engine : Engine) (f : Audio → String) (fuel : Nat)
    (hmux : s.audioMux ≠ none) (hmeta : s.setMetadata = some f)
    (hfuel : s.queue.length < fuel) :
    (∃ run j, s.Start fuel engine = some run ∧ (s.queue ≠ [] → 0 < j) ∧
      run.calls = (s.queue.take j).map (fun a =>
        { args :=
            ["-y", "-re", "-i", "pipe:", "-c:a",
                if a.OverrideEncoding ≠ "" then a.OverrideEncoding else s.encoding] ++
              bitratesToArgs s.bitrates ++
              ["-hls_time", Itoa s.hlsTime, "-hls_list_size", Itoa s.hlsListSize,
                "-hls_flags", "append_list+delete_segments+omit_endlist",
                "-metadata", "title=" ++ f a,
                "-master_pl_name", s.masterPlaylistName,
                "-hls_segment_filename", s.segmentFilename, s.playlistName]
          stdin := a.Data })) ∧
      (∀ (bitrates : List String) (a : Audio),
        (NewStream bitrates []).1.encoding = "aac" ∧
          (NewStream bitrates []).1.setMetadata = some defaultMetadataTitle ∧
          defaultMetadataTitle a = a.Artist ++ " - " ++ a.Title) := by
  constructor
  · rcases Start_spec engine f s fuel hmux hmeta hfuel with
      ⟨_, hrun⟩ | ⟨k, ak, e, _, _, _, hrun⟩
    · refine ⟨_, s.queue.length, hrun, ?_, ?_⟩
      · intro hne
        exact List.length_pos.mpr hne
      · simp only [List.take_length, ffmpegArgs_eq]
    · refine ⟨_, k + 1, hrun, fun _ => Nat.succ_pos k, ?_⟩
      simp only [ffmpegArgs_eq]
  · intro bitrates a
    rw [NewStream_nil]
    exact ⟨rfl, rfl, rfl⟩

/-- Witness of C7: a fresh stream holding A and B (B overrides the codec). -/
theorem C7_engine_arguments_witness :
    ((initStream ["128k"]).withQueue [audioA, audioB]).audioMux ≠ none ∧
      ((initStream ["128k"]).withQueue [audioA, audioB]).setMetadata = some defaultMetadataTitle ∧
      ∃ run j, ((initStream ["128k"]).withQueue [audioA, audioB]).Start 3 okEngine = some run ∧
        0 < j :=
  ⟨by decide, rfl,
    let ⟨run, j, h1, h2, _⟩ :=
      (C7_engine_arguments ((initStream ["128k"]).withQueue [audioA, audioB]) okEngine
        defaultMetadataTitle 3 (by decide) rfl (by decide)).1
    ⟨run, j, h1, h2 (by simp [withQueue_queue])⟩⟩

/-- C9 (as stated, refuted): a stream made by `NewStream` without
`WithHLSSize` and `WithHLSTime` has hls_list_size 80 and hls_time 5, not 50
and 8, and the engine is handed `-hls_time 5` and `-hls_list_size 80`. -/
theorem C9_counterexample :
    (NewStream ["128k"] []).1.hlsListSize = 80 ∧
      (NewStream ["128k"] []).1.hlsTime = 5 ∧
      (NewStream ["128k"] []).1.hlsListSize ≠ 50 ∧
      (NewStream ["128k"] []).1.hlsTime ≠ 8 ∧
      ((((NewStream ["128k"] []).1.withQueue [audioA]).Start 2 okEngine).map
          (fun run => run.calls.map (fun c => c.args))) =
        some [["-y", "-re", "-i", "pipe:", "-c:a", "aac", "-b:a:0", "128k", "-map", "a:0",
          "-var_stream_map", "a:0", "-hls_time", "5", "-hls_list_size", "80",
          "-hls_flags", "append_list+delete_segments+omit_endlist",
          "-metadata", "title=Foo - Bar", "-master_pl_name", "master.m3u8",
          "-hls_segment_filename", "hls-%v/hls-segment-%06d.ts", "hls-%v/hls-playlist.m3u8"]] := by
  refine ⟨by decide, by decide, by decide, by decide, by decide⟩

/-- C9 (amended): a stream that `NewStream` returns without error, built with
options that leave hls_list_size and hls_time alone (no `WithHLSSize`, no
`WithHLSTime`), has the defaults of the code, hls_list_size 80 and hls_time 5,
and every argument list a run of `Start` on it hands to the engine, whatever
the queue, holds `-hls_time`, `5`, `-hls_list_size`, `80` in this order. -/
theorem C9_defaults_are_80_and_5 (bitrates : List String) (opts : List StreamOption)
    (s : Stream)
    (hopts : ∀ o ∈ opts, ∀ t : Stream,
      (o t).hlsListSize = t.hlsListSize ∧ (o t).hlsTime = t.hlsTime)
    (hnew : NewStream bitrates opts = (s, none)) :
    s.hlsListSize = 80 ∧ s.hlsTime = 5 ∧
      ∀ (queue : List Audio) (engine : Engine) (fuel : Nat) (run : Run),
        (s.withQueue queue).Start fuel engine = some run →
        ∀ c ∈ run.calls,
          ∃ pre post, c.args = pre ++ ["-hls_time", "5", "-hls_list_size", "80"] ++ post := by
  have hs := NewStream_ok bitrates opts s hnew
  have hh := applyOpts_hls opts hopts (initStream bitrates)
  rw [← hs] at hh
  have h80 : s.hlsListSize = 80 := hh.1
  have h5 : s.hlsTime = 5 := hh.2
  refine ⟨h80, h5, ?_⟩
  intro queue engine fuel run hrun c hc
  rw [Start_eq_execFFmpeg] at hrun
  have hsize : Itoa (s.withQueue queue).hlsListSize = "80" := by
    have : (s.withQueue queue).hlsListSize = 80 := h80
    rw [this]
    decide
  have htime : Itoa (s.withQueue queue).hlsTime = "5" := by
    have : (s.withQueue queue).hlsTime = 5 := h5
    rw [this]
    decide
  unfold Stream.execFFmpeg at hrun
  simp only [hsize, htime] at hrun
  rcases execLoop_calls engine "80" "5" _ fuel _ [] run hrun c hc with h | h
  · simp at h
  · exact h

/-- Witness of C9: the stream of `NewStream` with the ladder `128k` and the
option `WithDebug`, run on a queue holding A. -/
theorem C9_defaults_are_80_and_5_witness :
    NewStream ["128k"] [WithDebug] = (applyOpts [WithDebug] (initStream ["128k"]), none) ∧
      (applyOpts [WithDebug] (initStream ["128k"])).hlsListSize = 80 ∧
      (applyOpts [WithDebug] (initStream ["128k"])).hlsTime = 5 ∧
      ∃ run, ((applyOpts [WithDebug] (initStream ["128k"])).withQueue [audioA]).Start 2 okEngine =
          some run ∧
        run.calls.length = 1 ∧
        ∀ c ∈ run.calls,
          ∃ pre post, c.args = pre ++ ["-hls_time", "5", "-hls_list_size", "80"] ++ post :=
  have hnew : NewStream ["128k"] [WithDebug] =
      (applyOpts [WithDebug] (initStream ["128k"]), none) := rfl
  have h := C9_defaults_are_80_and_5 ["128k"] [WithDebug]
    (applyOpts [WithDebug] (initStream ["128k"]))
    (by intro o ho t; simp at ho; subst ho; exact ⟨rfl, rfl⟩) hnew
  ⟨hnew, h.1, h.2.1, _, rfl, rfl, h.2.2 [audioA] okEngine 2 _ rfl⟩

end Hls
